import Mathlib

/-
Verification of the template-substitution utility in etc/copy-and-subst.mjs.

Embedding conventions:

* The substitution data is the result of JSON.parse on the data file, so it
  is modelled as a pure JSON tree `JSValue` (null, boolean, number, string,
  array, object).  Arrays and objects are mutually inductive lists so that
  all recursion over values is structural and kernel-reducible.  Numbers are
  modelled as integers (the data relevant to the expression engine is
  integral; no claim depends on float formatting).  Object fields are in
  insertion order with distinct keys, as produced by JSON.parse; properties
  inherited from Object.prototype are not part of the parsed data and are
  not modelled.
* JavaScript strings are manipulated through their character lists
  (String.mk / String.data); the JS single-character split(sep) is
  List.splitOn, and trim / whitespace follow the ASCII whitespace characters
  (space, tab, newline, carriage return, vertical tab, form feed), on which
  the JS definitions agree.
* The regex scans of the source (matchAll of the mustache pattern, and
  String.replace over the at-sign token pattern) are embedded as explicit
  scanners with the same leftmost, non-overlapping semantics; split/join
  replacement is embedded as leftmost non-overlapping literal replacement.
* Thrown errors are modelled with Except String; the error strings are the
  exact template-literal texts of the source.
-/

namespace CopySubst

mutual
/-- A JSON value, as produced by JSON.parse on the substitutions file. -/
inductive JSValue where
  | null : JSValue
  | bool (b : Bool) : JSValue
  | num (n : Int) : JSValue
  | str (s : String) : JSValue
  | arr (elems : JSList) : JSValue
  | obj (fields : JSFields) : JSValue

/-- The element list of a JSON array. -/
inductive JSList where
  | nil : JSList
  | cons (head : JSValue) (tail : JSList) : JSList

/-- The field list of a JSON object, in insertion order, keys distinct. -/
inductive JSFields where
  | nil : JSFields
  | cons (key : String) (val : JSValue) (tail : JSFields) : JSFields
end

/-- Build a JSList from a Lean list (concrete-value convenience). -/
def JSList.ofList : List JSValue → JSList
  | [] => .nil
  | v :: vs => .cons v (JSList.ofList vs)

/-- Build a JSFields from a Lean association list (concrete-value convenience). -/
def JSFields.ofList : List (String × JSValue) → JSFields
  | [] => .nil
  | (k, v) :: rest => .cons k v (JSFields.ofList rest)

/-- Number of elements of a JSON array (JS array .length). -/
def JSList.length : JSList → Nat
  | .nil => 0
  | .cons _ t => t.length + 1

/-- Element of a JSON array at an index, with a default out of range. -/
def JSList.getD : JSList → Nat → JSValue → JSValue
  | .nil, _, d => d
  | .cons h _, 0, _ => h
  | .cons _ t, n + 1, d => t.getD n d

/-- The ASCII whitespace characters recognised by the JS regexp class \s and
by String.prototype.trim (restricted to ASCII inputs). -/
def jsIsSpace (c : Char) : Bool :=
  (c == ' ') || (c == '\t') || (c == '\n') || (c == '\r') || (c == '\x0b') || (c == '\x0c')

/-- Drop whitespace from both ends of a character list (JS trim on .data). -/
def trimL (cs : List Char) : List Char :=
  ((cs.dropWhile jsIsSpace).reverse.dropWhile jsIsSpace).reverse

/-- JS String.prototype.trim. -/
def jsTrim (s : String) : String := String.mk (trimL s.data)

/-- JS String.prototype.split with a single-character separator. -/
def splitC (sep : Char) (s : String) : List String :=
  (s.data.splitOn sep).map String.mk

/-- Value of a decimal digit string (all characters assumed digits). -/
def natOfDigits (cs : List Char) : Nat :=
  cs.foldl (fun a c => a * 10 + (c.toNat - 48)) 0

/-- Whether a property key is a canonical array index string, and its value:
the JS `key in array` test holds for exactly the canonical decimal strings of
the in-range indices (no sign, no leading zero except "0" itself). -/
def arrayIndexOf (cs : List Char) : Option Nat :=
  if cs ≠ [] ∧ cs.all Char.isDigit ∧ (cs = ['0'] ∨ cs.head? ≠ some '0') then
    some (natOfDigits cs)
  else none

/-- First field of a parsed JSON object with the given key (JSON.parse keeps
one property per key, so the fields of a parsed object have distinct keys). -/
def lookupField (key : String) : JSFields → Option JSValue
  | .nil => none
  | .cons k v rest => if k = key then some v else lookupField key rest

/-- One step of the reduce inside `get`:
`(acc && typeof acc === 'object' && key in acc) ? acc[key] : undefined`.
A missing value (JS undefined) is `none`.  null is falsy, so it stops the
descent; booleans, numbers and strings are not object-typed; objects and
arrays are object-typed, and `key in acc` holds for an object field key, for
a canonical in-range array index, and for the array property "length". -/
def getStep (acc : Option JSValue) (key : String) : Option JSValue :=
  match acc with
  | none => none
  | some .null => none
  | some (.bool _) => none
  | some (.num _) => none
  | some (.str _) => none
  | some (.obj fields) => lookupField key fields
  | some (.arr xs) =>
    if key = "length" then some (.num xs.length)
    else
      match arrayIndexOf key.data with
      | some i => if i < xs.length then some (xs.getD i .null) else none
      | none => none

/-- The source function `get(obj, path)`:
`path.split('.').reduce((acc, key) => (acc && typeof acc === 'object' && key in acc) ? acc[key] : undefined, obj)`. -/
def get (obj : JSValue) (path : String) : Option JSValue :=
  (splitC '.' path).foldl getStep (some obj)

example : get (.obj (JSFields.ofList [("user", .obj (JSFields.ofList [("name", .str "Ann")]))])) "user.name"
    = some (.str "Ann") := rfl

example : get (.obj (JSFields.ofList [("a", .num 1)])) "a.b" = none := rfl

example : get (.str "abc") "0" = none := rfl

example : get (.arr (JSList.ofList [.num 10, .num 20])) "length" = some (.num 2) := rfl

/-- JS parseInt(s, 10) wrapped in the `!isNaN(...)` test of the source: skip
leading whitespace, take an optional sign and then the leading run of decimal
digits; none when there is no digit. -/
def jsParseInt (s : String) : Option Int :=
  let cs := s.data.dropWhile jsIsSpace
  let signed : Bool × List Char :=
    match cs with
    | '-' :: r => (true, r)
    | '+' :: r => (false, r)
    | r => (false, r)
  let ds := signed.2.takeWhile Char.isDigit
  if ds = [] then none
  else
    let n : Int := natOfDigits ds
    some (if signed.1 then -n else n)

/-- Hexadecimal digit character for n < 16. -/
def hexDigit (n : Nat) : Char :=
  if n < 10 then Char.ofNat (48 + n) else Char.ofNat (87 + n)

/-- JSON.stringify escaping of one string character. -/
def escapeChar (c : Char) : List Char :=
  if c = '"' then ['\\', '"']
  else if c = '\\' then ['\\', '\\']
  else if c = '\n' then ['\\', 'n']
  else if c = '\r' then ['\\', 'r']
  else if c = '\t' then ['\\', 't']
  else if c = '\x08' then ['\\', 'b']
  else if c = '\x0c' then ['\\', 'f']
  else if c.toNat < 32 then ['\\', 'u', '0', '0', hexDigit (c.toNat / 16), hexDigit (c.toNat % 16)]
  else [c]

/-- JSON.stringify quoting of a string value. -/
def quoteJson (s : String) : String :=
  String.mk ('"' :: s.data.foldr (fun c acc => escapeChar c ++ acc) ['"'])

/-- Newline plus indentation emitted by JSON.stringify before an entry at
nesting level lvl, for an indentation width gap; empty when gap = 0. -/
def sepNl (gap lvl : Nat) : String :=
  if gap = 0 then "" else String.mk ('\n' :: List.replicate (gap * lvl) ' ')

/-- Separator between a key and its value in JSON.stringify output. -/
def kvSep (gap : Nat) : String :=
  if gap = 0 then ":" else ": "

mutual
/-- JSON.stringify(v, null, gap) at nesting level lvl, gap already clamped. -/
def stringifyVal (gap lvl : Nat) : JSValue → String
  | .null => "null"
  | .bool b => cond b "true" "false"
  | .num n => toString n
  | .str s => quoteJson s
  | .arr xs => stringifyArr gap lvl xs
  | .obj fs => stringifyObj gap lvl fs

/-- Serialize a JSON array. -/
def stringifyArr (gap lvl : Nat) : JSList → String
  | .nil => "[]"
  | .cons v t => "[" ++ sepNl gap (lvl + 1) ++ stringifyVal gap (lvl + 1) v ++ stringifyArrRest gap lvl t

/-- Remaining elements of a nonempty JSON array, then the closing bracket. -/
def stringifyArrRest (gap lvl : Nat) : JSList → String
  | .nil => sepNl gap lvl ++ "]"
  | .cons v t => "," ++ sepNl gap (lvl + 1) ++ stringifyVal gap (lvl + 1) v ++ stringifyArrRest gap lvl t

/-- Serialize a JSON object. -/
def stringifyObj (gap lvl : Nat) : JSFields → String
  | .nil => String.mk ['{', '}']
  | .cons k v t =>
    String.mk ['{'] ++ sepNl gap (lvl + 1) ++ quoteJson k ++ kvSep gap
      ++ stringifyVal gap (lvl + 1) v ++ stringifyObjRest gap lvl t

/-- Remaining fields of a nonempty JSON object, then the closing brace. -/
def stringifyObjRest (gap lvl : Nat) : JSFields → String
  | .nil => sepNl gap lvl ++ String.mk ['}']
  | .cons k v t =>
    "," ++ sepNl gap (lvl + 1) ++ quoteJson k ++ kvSep gap
      ++ stringifyVal gap (lvl + 1) v ++ stringifyObjRest gap lvl t
end

/-- JSON.stringify(v, null, space): the numeric space argument is clamped to
at most 10, and any value below 1 means no pretty-printing. -/
def jsonStringify (v : JSValue) (space : Int) : String :=
  stringifyVal (Int.toNat (min space 10)) 0 v

/-- The string-specific modifier cases of applyModifiers (the switch applied
when the current value is a string); an unrecognized token passes through. -/
def applyStringMod (s : String) (m : String) : String :=
  if m = "lower" then String.mk (s.data.map Char.toLower)
  else if m = "upper" then String.mk (s.data.map Char.toUpper)
  else if m = "_" then String.mk (s.data.map (fun c => if c = '-' then '_' else c))
  else if m = "-" then String.mk (s.data.map (fun c => if c = '_' then '-' else c))
  else s

/-- The source function applyModifiers(value, modifiers).  The `json` token
serializes the current value; when the following token parses as an integer
it is consumed (the `modifiers[++i]` of the source) and used as indentation,
with 2 as default.  All other tokens act only when the current value is a
string. -/
def applyModifiers : JSValue → List String → JSValue
  | result, [] => result
  | result, [m] =>
    if m = "json" then .str (jsonStringify result 2)
    else
      match result with
      | .str s => .str (applyStringMod s m)
      | r => r
  | result, m :: next :: rest =>
    if m = "json" then
      match jsParseInt next with
      | some n => applyModifiers (.str (jsonStringify result n)) rest
      | none => applyModifiers (.str (jsonStringify result 2)) (next :: rest)
    else
      match result with
      | .str s => applyModifiers (.str (applyStringMod s m)) (next :: rest)
      | r => applyModifiers r (next :: rest)

mutual
/-- JS String(v) default string conversion. -/
def jsToString : JSValue → String
  | .null => "null"
  | .bool b => cond b "true" "false"
  | .num n => toString n
  | .str s => s
  | .arr xs => jsArrToString xs
  | .obj _ => "[object Object]"

/-- JS Array.prototype.toString: the elements joined by commas. -/
def jsArrToString : JSList → String
  | .nil => ""
  | .cons v .nil => jsArrElem v
  | .cons v (JSList.cons w t) => jsArrElem v ++ "," ++ jsArrToString (.cons w t)

/-- One element in an array join: null becomes empty, others use String(v). -/
def jsArrElem : JSValue → String
  | .null => ""
  | .bool b => cond b "true" "false"
  | .num n => toString n
  | .str s => s
  | .arr xs => jsArrToString xs
  | .obj _ => "[object Object]"
end

example : jsonStringify (.arr (JSList.ofList [.num 1, .num 2])) 4 = "[\n    1,\n    2\n]" := rfl

example : jsonStringify (.arr (JSList.ofList [.num 1, .num 2])) 0 = "[1,2]" := rfl

example : applyModifiers (.str "Foo-Bar") ["lower", "_"] = .str "foo_bar" := rfl

example : jsToString (.arr (JSList.ofList [.num 1, .str "x", .null])) = "1,x," := rfl

/-- The first line of resolveExpression:
`expr.split('=').map(s => s.trim())`. -/
def parseParts (expr : String) : List String :=
  (splitC '=' expr).map jsTrim

/-- The head of parseParts: the fallback spec before the first equals sign. -/
def fallbacksStrOf (expr : String) : String :=
  match parseParts expr with
  | [] => ""
  | p :: _ => p

/-- The default value of an expression:
`defaultParts.length > 0 ? defaultParts.join('=').trim() : undefined`. -/
def defaultValueOf (expr : String) : Option String :=
  match parseParts expr with
  | _ :: d :: ds => some (jsTrim (String.intercalate "=" (d :: ds)))
  | _ => none

/-- The fallback candidates: `fallbacksStr.split('|').map(s => s.trim())`. -/
def parseFallbacks (expr : String) : List String :=
  (splitC '|' (fallbacksStrOf expr)).map jsTrim

/-- The path of one fallback candidate: the head of
`fallback.split(':').map(s => s.trim())`. -/
def pathOf (fb : String) : String :=
  match (splitC ':' fb).map jsTrim with
  | [] => ""
  | p :: _ => p

/-- The modifier tokens of one fallback candidate: the tail of
`fallback.split(':').map(s => s.trim())`. -/
def modsOf (fb : String) : List String :=
  ((splitC ':' fb).map jsTrim).tail

/-- The fallback loop of resolveExpression: the first candidate whose path
lookup is defined yields the value with its modifiers applied; candidates
after it are not evaluated. -/
def firstResolved (subs : JSValue) : List String → Option JSValue
  | [] => none
  | fb :: rest =>
    match get subs (pathOf fb) with
    | some value => some (applyModifiers value (modsOf fb))
    | none => firstResolved subs rest

/-- The replacement callback of the secondary substitution
`defaultValue.replace(/@([^@]+)@/g, ...)`: a token resolving to a string or
a number is spliced in (a number through its string form, as the JS replace
coerces the returned value); anything else throws. -/
def secondaryLookup (subs : JSValue) (expr src innerPath : String) : Except String String :=
  match get subs (jsTrim innerPath) with
  | some (.str s) => .ok s
  | some (.num n) => .ok (toString n)
  | _ => .error ("Variable '@" ++ jsTrim innerPath ++ "@' inside default for '" ++ expr
      ++ "' in '" ++ src ++ "' must resolve to a string or number.")

mutual
/-- Scan of the JS global replace over /@([^@]+)@/ outside a candidate token:
text is copied until an at sign opens a candidate token. -/
def rtOut (f : String → Except String String) : List Char → Except String String
  | [] => .ok ""
  | c :: rest =>
    if c = '@' then rtIn f [] rest
    else (rtOut f rest).map (fun t => String.mk [c] ++ t)

/-- Scan inside a candidate token, buf holding the characters read so far in
reverse.  A closing at sign after at least one character completes the token
(the regex body [^@]+ requires a nonempty run without at signs); a closing at
sign with an empty buffer means the opener matched nothing, so the opener is
literal text and the scan restarts at the new at sign; at the end of input an
unclosed opener and its buffer are literal text. -/
def rtIn (f : String → Except String String) (buf : List Char) : List Char → Except String String
  | [] => .ok (String.mk ('@' :: buf.reverse))
  | c :: rest =>
    if c = '@' then
      if buf = [] then (rtIn f [] rest).map (fun t => "@" ++ t)
      else
        match f (String.mk buf.reverse) with
        | .error e => .error e
        | .ok r => (rtOut f rest).map (fun t => r ++ t)
    else rtIn f (c :: buf) rest
end

/-- The source function resolveExpression(expr, substitutions, sourcePath):
try the fallback candidates in order; when none is defined, either perform
the secondary substitution on the default text or throw; finally coerce with
String(resolvedValue). -/
def resolveExpression (expr : String) (subs : JSValue) (src : String) : Except String String :=
  match firstResolved subs (parseFallbacks expr) with
  | some v => .ok (jsToString v)
  | none =>
    match defaultValueOf expr with
    | some d =>
      match rtOut (secondaryLookup subs expr src) d.data with
      | .ok r => .ok r
      | .error e => .error e
    | none =>
      .error ("Variable '" ++ String.intercalate " | " (parseFallbacks expr)
        ++ "' could not be resolved in file '" ++ src ++ "'.")

example : resolveExpression "a | b" (.obj (JSFields.ofList [("b", .str "x")])) "f.tmpl" = .ok "x" := rfl

example : resolveExpression "a | b" (.obj (JSFields.ofList [("a", .str ""), ("b", .str "x")])) "f.tmpl"
    = .ok "" := rfl

example : resolveExpression "name:lower:_" (.obj (JSFields.ofList [("name", .str "Foo-Bar")])) "f.tmpl"
    = .ok "foo_bar" := rfl

example : resolveExpression "missing = Hello, @user.name@"
    (.obj (JSFields.ofList [("user", .obj (JSFields.ofList [("name", .str "Ann")]))])) "f.tmpl"
    = .ok "Hello, Ann" := rfl

example : resolveExpression "missing.path" (.obj .nil) "f.tmpl"
    = .error "Variable 'missing.path' could not be resolved in file 'f.tmpl'." := rfl

/-- The captured group of one match of the template pattern, given the run b
of non-closing-brace characters between the braces: the leading whitespace
goes to the greedy leading gap, the lazy body then extends until only
whitespace remains before the closing braces, so the capture is b trimmed;
when b is all whitespace the greedy gap backtracks one character and the
body is the last character of b. -/
def captureOf (b : List Char) : List Char :=
  if b.dropWhile jsIsSpace = [] then
    match b.getLast? with
    | some c => [c]
    | none => []
  else trimL b

/-- Try to match the template pattern of copyAndSubstitute at the head of the
text.  The pattern body excludes closing braces, so a match must close at the
first closing brace after the opener, and that brace must start a double
closing brace; the body must be nonempty.  Returns the full matched text, the
captured expression and the text after the match. -/
def tryMatchAt (cs : List Char) : Option (List Char × List Char × List Char) :=
  match cs with
  | '{' :: '{' :: rest =>
    let b := rest.takeWhile (fun c => c ≠ '}')
    match rest.drop b.length with
    | '}' :: '}' :: tail =>
      if b = [] then none
      else some ('{' :: '{' :: (b ++ ['}', '}']), captureOf b, tail)
    | _ => none
  | _ => none

/-- The matchAll scan of copyAndSubstitute: leftmost matches, each scan
resuming after the matched text, advancing one character on failure.  The
fuel argument only drives the recursion; fuel = length of the text is enough
because every step consumes at least one character. -/
def findMatchesF : Nat → List Char → List (List Char × List Char)
  | 0, _ => []
  | _, [] => []
  | fuel + 1, c :: rest =>
    match tryMatchAt (c :: rest) with
    | some (full, cap, tail) => (full, cap) :: findMatchesF fuel tail
    | none => findMatchesF fuel rest

/-- All matches of the template pattern in the content, in text order. -/
def findMatches (cs : List Char) : List (List Char × List Char) :=
  findMatchesF cs.length cs

/-- JS content.split(find).join(repl) for a nonempty find string: replace the
leftmost, non-overlapping occurrences of find by repl.  The fuel argument
only drives the recursion; fuel = length of the text is enough. -/
def replaceAllF (find repl : List Char) : Nat → List Char → List Char
  | 0, cs => cs
  | _, [] => []
  | fuel + 1, c :: rest =>
    if find ≠ [] ∧ find.isPrefixOf (c :: rest) = true then
      repl ++ replaceAllF find repl fuel ((c :: rest).drop find.length)
    else
      c :: replaceAllF find repl fuel rest

/-- Replace every leftmost non-overlapping occurrence of find by repl. -/
def replaceAll (find repl cs : List Char) : List Char :=
  replaceAllF find repl cs.length cs

/-- Whether find occurs as a contiguous run inside cs. -/
def hasSub (find cs : List Char) : Bool :=
  cs.tails.any (fun t => find.isPrefixOf t)

/-- The first loop of copyAndSubstitute over a template file: resolve every
matched expression in match order, collecting (matched text, replacement
characters); the first resolution error aborts the file. -/
def collectReplacements (subs : JSValue) (src : String) :
    List (List Char × List Char) → Except String (List (List Char × List Char))
  | [] => .ok []
  | (full, cap) :: rest =>
    match resolveExpression (String.mk cap) subs src with
    | .error e => .error e
    | .ok r =>
      match collectReplacements subs src rest with
      | .error e => .error e
      | .ok tail => .ok ((full, r.data) :: tail)

/-- The content transformation of copyAndSubstitute on a template file: find
and resolve all expressions first, then apply the replacements one after the
other, each as a literal split/join over the then-current content. -/
def substituteContent (content : String) (subs : JSValue) (src : String) : Except String String :=
  match collectReplacements subs src (findMatches content.data) with
  | .error e => .error e
  | .ok reps => .ok (String.mk (reps.foldl (fun acc fr => replaceAll fr.1 fr.2 acc) content.data))

/-- Modelled from the spec: the output the spec describes for a template
file, namely the original content in which each occurrence matched by the
template pattern is replaced, in place, by its own resolved value, with the
resolved text never re-scanned and no double substitution.  This is the
comparison definition for the refinement claim about copyAndSubstitute; the
fuel argument only drives the recursion, fuel = length of the text is
enough. -/
def specPerOccurrenceF (subs : JSValue) (src : String) : Nat → List Char → Except String (List Char)
  | 0, cs => .ok cs
  | _, [] => .ok []
  | fuel + 1, c :: rest =>
    match tryMatchAt (c :: rest) with
    | some (_, cap, tail) =>
      match resolveExpression (String.mk cap) subs src with
      | .error e => .error e
      | .ok r =>
        match specPerOccurrenceF subs src fuel tail with
        | .error e => .error e
        | .ok t => .ok (r.data ++ t)
    | none =>
      match specPerOccurrenceF subs src fuel rest with
      | .error e => .error e
      | .ok t => .ok (c :: t)

/-- Modelled from the spec: in-place simultaneous replacement of every
matched occurrence by its resolved value (see specPerOccurrenceF). -/
def specSimultaneousSubst (content : String) (subs : JSValue) (src : String) : Except String String :=
  (specPerOccurrenceF subs src content.data.length content.data).map String.mk

/-- JS p.endsWith(q) on the character lists. -/
def endsWithTmpl (p : String) : Bool :=
  ".tmpl".data.isSuffixOf p.data

/-- The target path actually written:
`target.endsWith('.tmpl') ? target.slice(0, -5) : target`. -/
def finalTargetPath (target : String) : String :=
  if endsWithTmpl target then String.mk (target.data.take (target.data.length - 5)) else target

/-- What copyAndSubstitute does with one regular file. -/
inductive FileAction where
  | substituted (path : String) (result : Except String String) : FileAction
  | copied (path : String) : FileAction

/-- The file branch of copyAndSubstitute: the suffix of the TARGET path
decides the suffix stripping, the suffix of the SOURCE path decides whether
the content is substituted or byte-copied. -/
def fileStep (source target : String) (subs : JSValue) (content : String) : FileAction :=
  if endsWithTmpl source then .substituted (finalTargetPath target) (substituteContent content subs source)
  else .copied (finalTargetPath target)

example : findMatches "x{{ a }}y".data = [("{{ a }}".data, "a".data)] := rfl

example : substituteContent "Hello {{ user.name }}!"
    (.obj (JSFields.ofList [("user", .obj (JSFields.ofList [("name", .str "Ann")]))])) "f.tmpl"
    = .ok "Hello Ann!" := rfl

example : replaceAll "ab".data "X".data "zababy".data = "zXXy".data := rfl

/-- Appending strings is appending their character lists. -/
theorem mk_append (a b : List Char) : String.mk a ++ String.mk b = String.mk (a ++ b) := rfl

/-- Prepending the empty string is the identity. -/
theorem str_nil_append (s : String) : String.mk [] ++ s = s := by
  cases s
  rfl

/-- Candidates whose lookup is undefined are skipped by the fallback loop. -/
theorem firstResolved_append_none (subs : JSValue) (pre rest : List String)
    (h : ∀ fb ∈ pre, get subs (pathOf fb) = none) :
    firstResolved subs (pre ++ rest) = firstResolved subs rest := by
  induction pre with
  | nil => rfl
  | cons p ps ih =>
    have hp : get subs (pathOf p) = none := h p (List.mem_cons_self p ps)
    rw [List.cons_append]
    simp only [firstResolved, hp]
    exact ih (fun fb hfb => h fb (List.mem_cons_of_mem p hfb))

/-- C1: in resolveExpression, the first fallback candidate whose path lookup
is defined wins: its modifiers are applied and the result does not depend on
the candidates after it; any defined value — also a falsy one such as the
empty string, 0 or false — stops the search. -/
theorem resolveExpression_first_fallback_wins
    (expr src : String) (subs : JSValue) (pre post : List String) (fb : String) (v : JSValue)
    (hsplit : parseFallbacks expr = pre ++ fb :: post)
    (hpre : ∀ p ∈ pre, get subs (pathOf p) = none)
    (hfb : get subs (pathOf fb) = some v) :
    resolveExpression expr subs src = .ok (jsToString (applyModifiers v (modsOf fb))) := by
  have h1 : firstResolved subs (parseFallbacks expr) = some (applyModifiers v (modsOf fb)) := by
    rw [hsplit, firstResolved_append_none subs pre (fb :: post) hpre]
    simp only [firstResolved, hfb]
  simp [resolveExpression, h1]

/-- Witness for C1, on the spec example where the first candidate is the
defined empty string: the falsy-but-defined value wins over the second
candidate. -/
theorem resolveExpression_first_fallback_wins_witness :
    resolveExpression "a | b" (.obj (JSFields.ofList [("a", .str ""), ("b", .str "x")])) "f.tmpl"
      = .ok "" := by
  have h := resolveExpression_first_fallback_wins "a | b" "f.tmpl"
    (.obj (JSFields.ofList [("a", .str ""), ("b", .str "x")])) [] ["b"] "a" (.str "")
    rfl (fun p hp => absurd hp (List.not_mem_nil p)) rfl
  exact h

/-- C7: with no default, an expression none of whose fallback candidates
resolves fails with the exact message joining the attempted candidates with
a pipe separator and naming the source file; when a candidate resolves, or a
default exists and its secondary substitution succeeds, no error is
raised. -/
theorem resolveExpression_unresolved_error (expr src : String) (subs : JSValue) :
    (defaultValueOf expr = none → firstResolved subs (parseFallbacks expr) = none →
      resolveExpression expr subs src
        = .error ("Variable '" ++ String.intercalate " | " (parseFallbacks expr)
            ++ "' could not be resolved in file '" ++ src ++ "'."))
    ∧ (∀ v, firstResolved subs (parseFallbacks expr) = some v →
        resolveExpression expr subs src = .ok (jsToString v))
    ∧ (∀ d r, defaultValueOf expr = some d →
        rtOut (secondaryLookup subs expr src) d.data = .ok r →
        ∃ out, resolveExpression expr subs src = .ok out) := by
  refine ⟨fun h1 h2 => ?_, fun v hv => ?_, fun d r hd hr => ?_⟩
  · simp [resolveExpression, h1, h2]
  · simp [resolveExpression, hv]
  · cases hfr : firstResolved subs (parseFallbacks expr) with
    | some v => exact ⟨jsToString v, by simp [resolveExpression, hfr]⟩
    | none => exact ⟨r, by simp [resolveExpression, hfr, hd, hr]⟩

/-- Witness for C7, on the spec example: an unmatched expression without a
default raises the error naming the attempted path and the file. -/
theorem resolveExpression_unresolved_error_witness :
    resolveExpression "missing.path" (.obj .nil) "f.tmpl"
      = .error "Variable 'missing.path' could not be resolved in file 'f.tmpl'." := by
  have h := (resolveExpression_unresolved_error "missing.path" "f.tmpl" (.obj .nil)).1 rfl rfl
  exact h.trans (congrArg Except.error (by decide))

/-- Modifier tokens other than json leave a non-string value unchanged. -/
theorem applyModifiers_nonstring_nojson (v : JSValue) (hv : ∀ s, v ≠ .str s) :
    ∀ mods : List String, (∀ m ∈ mods, m ≠ "json") → applyModifiers v mods = v := by
  intro mods
  induction mods with
  | nil => intro _; rfl
  | cons m rest ih =>
    intro h
    have hm : m ≠ "json" := h m (List.mem_cons_self m rest)
    have hrest : ∀ x ∈ rest, x ≠ "json" := fun x hx => h x (List.mem_cons_of_mem m hx)
    cases rest with
    | nil =>
      cases v with
      | str s => exact absurd rfl (hv s)
      | null => simp [applyModifiers, hm]
      | bool b => simp [applyModifiers, hm]
      | num n => simp [applyModifiers, hm]
      | arr xs => simp [applyModifiers, hm]
      | obj fs => simp [applyModifiers, hm]
    | cons next rest2 =>
      have ih2 := ih hrest
      cases v with
      | str s => exact absurd rfl (hv s)
      | null => simp [applyModifiers, hm]; exact ih2
      | bool b => simp [applyModifiers, hm]; exact ih2
      | num n => simp [applyModifiers, hm]; exact ih2
      | arr xs => simp [applyModifiers, hm]; exact ih2
      | obj fs => simp [applyModifiers, hm]; exact ih2

/-- Join a list of strings with commas. -/
def joinComma : List String → String
  | [] => ""
  | [s] => s
  | s :: t :: rest => s ++ "," ++ joinComma (t :: rest)

/-- Elements of a JSON array as a Lean list. -/
def JSList.toList : JSList → List JSValue
  | .nil => []
  | .cons v t => v :: t.toList

/-- A JSON array with no null element converts to its elements' string
forms joined by commas. -/
theorem jsToString_arr_join : ∀ xs : JSList, (∀ x ∈ xs.toList, x ≠ .null) →
    jsToString (.arr xs) = joinComma (xs.toList.map jsToString)
  | .nil, _ => rfl
  | .cons v .nil, h => by
    have hv : v ≠ .null := h v (by simp [JSList.toList])
    cases v with
    | null => exact absurd rfl hv
    | bool b => rfl
    | num n => rfl
    | str s => rfl
    | arr ys => rfl
    | obj fs => rfl
  | .cons v (.cons w u), h => by
    have hv : v ≠ .null := h v (by simp [JSList.toList])
    have ht : ∀ x ∈ (JSList.cons w u).toList, x ≠ .null :=
      fun x hx => h x (by simp [JSList.toList] at hx ⊢; exact Or.inr hx)
    have ih := jsToString_arr_join (.cons w u) ht
    have step : jsToString (.arr (JSList.cons v (JSList.cons w u)))
        = jsArrElem v ++ "," ++ jsToString (.arr (JSList.cons w u)) := rfl
    rw [step, ih]
    have helem : jsArrElem v = jsToString v := by
      cases v with
      | null => exact absurd rfl hv
      | bool b => rfl
      | num n => rfl
      | str s => rfl
      | arr ys => rfl
      | obj fs => rfl
    rw [helem]
    rfl

/-- C10: a fallback candidate that resolves to a non-string value with no
json modifier does not fail: the value is coerced by the JS default string
conversion, under which an object becomes the text open-bracket object
Object close-bracket, an array becomes its elements joined by commas, and
null becomes the text null; the string-or-number restriction belongs only to
the secondary substitution of default texts. -/
theorem resolveExpression_nonstring_coercion
    (expr src : String) (subs : JSValue) (pre post : List String) (fb : String) (v : JSValue)
    (hsplit : parseFallbacks expr = pre ++ fb :: post)
    (hpre : ∀ p ∈ pre, get subs (pathOf p) = none)
    (hfb : get subs (pathOf fb) = some v)
    (hnostr : ∀ s, v ≠ .str s)
    (hmods : ∀ m ∈ modsOf fb, m ≠ "json") :
    resolveExpression expr subs src = .ok (jsToString v)
    ∧ (∀ fs, jsToString (.obj fs) = "[object Object]")
    ∧ jsToString .null = "null"
    ∧ (∀ xs : JSList, (∀ x ∈ xs.toList, x ≠ .null) →
        jsToString (.arr xs) = joinComma (xs.toList.map jsToString)) := by
  refine ⟨?_, fun fs => rfl, rfl, fun xs hxs => jsToString_arr_join xs hxs⟩
  have h := resolveExpression_first_fallback_wins expr src subs pre post fb v hsplit hpre hfb
  rw [applyModifiers_nonstring_nojson v hnostr (modsOf fb) hmods] at h
  exact h

/-- Witness for C10: a mapping-valued fallback resolves to the default
object string conversion instead of failing. -/
theorem resolveExpression_nonstring_coercion_witness :
    resolveExpression "m" (.obj (JSFields.ofList [("m", .obj (JSFields.ofList [("k", .num 1)]))])) "f.tmpl"
      = .ok "[object Object]" := by
  have h := (resolveExpression_nonstring_coercion "m" "f.tmpl"
    (.obj (JSFields.ofList [("m", .obj (JSFields.ofList [("k", .num 1)]))]))
    [] [] "m" (.obj (JSFields.ofList [("k", .num 1)]))
    rfl (fun p hp => absurd hp (List.not_mem_nil p)) rfl
    (fun s hs => by cases hs) (by decide)).1
  exact h

/-- A chain of object fields from a root value down to a leaf value: every
path segment is a field key of the object at that point. -/
inductive MappingChain : JSValue → List String → JSValue → Prop
  | nil (v : JSValue) : MappingChain v [] v
  | cons (fields : JSFields) (k : String) (v w : JSValue) (rest : List String) :
      lookupField k fields = some v → MappingChain v rest w →
      MappingChain (.obj fields) (k :: rest) w

/-- Once the lookup accumulator is undefined it stays undefined. -/
theorem foldl_getStep_none (ks : List String) : ks.foldl getStep none = none := by
  induction ks with
  | nil => rfl
  | cons k t ih => simpa [getStep] using ih

/-- Lookup along a chain of object fields reaches the leaf. -/
theorem mappingChain_foldl (D : JSValue) (ks : List String) (w : JSValue)
    (h : MappingChain D ks w) : ks.foldl getStep (some D) = some w := by
  induction h with
  | nil v => rfl
  | cons fields k v w rest hk hrest ih =>
    have step : (k :: rest).foldl getStep (some (JSValue.obj fields))
        = rest.foldl getStep (getStep (some (.obj fields)) k) := rfl
    rw [step]
    have : getStep (some (JSValue.obj fields)) k = some v := by simp [getStep, hk]
    rw [this]
    exact ih

/-- When the value reached after some path segments makes the next segment
undefined, the whole lookup is the undefined sentinel. -/
theorem get_stop_mid (D : JSValue) (P : String) (ks1 ks2 : List String) (k : String) (w : JSValue)
    (hsplit : splitC '.' P = ks1 ++ k :: ks2)
    (hfold : ks1.foldl getStep (some D) = some w)
    (hstep : getStep (some w) k = none) : get D P = none := by
  show (splitC '.' P).foldl getStep (some D) = none
  rw [hsplit, List.foldl_append, hfold]
  show ks2.foldl getStep (getStep (some w) k) = none
  rw [hstep]
  exact foldl_getStep_none ks2

/-- A segment on an array that is neither a canonical in-range index nor
the length property is undefined. -/
theorem getStep_arr_miss (k : String) (xs : JSList) (hk : k ≠ "length")
    (hidx : arrayIndexOf k.data = none ∨ ∃ i, arrayIndexOf k.data = some i ∧ ¬ i < xs.length) :
    getStep (some (.arr xs)) k = none := by
  rcases hidx with h1 | ⟨i, h2, h3⟩
  · simp [getStep, hk, h1]
  · simp [getStep, hk, h2, h3]

/-- C2 (amended): get returns the leaf value along a chain of objects whose
fields match every path segment; an undefined intermediate result stays
undefined for the rest of the path; a string, number, boolean or null stops
the descent with the undefined sentinel; an array, being object-typed, is
descended through a canonical in-range numeric segment or its length
property; a segment missing from an object field list, or missing from an
array (non-canonical or out of range), is undefined — also in the middle of
a longer path; and get is a total function, so it never throws. -/
theorem get_mapping_chain_amended (D : JSValue) (P : String) (w : JSValue) :
    (MappingChain D (splitC '.' P) w → get D P = some w)
    ∧ (∀ ks1 ks2 : List String, ks1.foldl getStep (some D) = none →
        (ks1 ++ ks2).foldl getStep (some D) = none)
    ∧ (∀ k s, getStep (some (.str s)) k = none)
    ∧ (∀ (k : String) (n : Int), getStep (some (.num n)) k = none)
    ∧ (∀ k b, getStep (some (.bool b)) k = none)
    ∧ (∀ k, getStep (some .null) k = none)
    ∧ (∀ (k : String) (xs : JSList) (i : Nat), arrayIndexOf k.data = some i → i < xs.length →
        getStep (some (.arr xs)) k = some (xs.getD i .null))
    ∧ (∀ (k : String) (fields : JSFields), lookupField k fields = none →
        getStep (some (.obj fields)) k = none)
    ∧ (∀ xs : JSList, getStep (some (.arr xs)) "length" = some (.num xs.length))
    ∧ (∀ (k : String) (xs : JSList), k ≠ "length" →
        arrayIndexOf k.data = none ∨ (∃ i, arrayIndexOf k.data = some i ∧ ¬ i < xs.length) →
        getStep (some (.arr xs)) k = none)
    ∧ (∀ (ks1 ks2 : List String) (k : String) (fields : JSFields),
        splitC '.' P = ks1 ++ k :: ks2 →
        ks1.foldl getStep (some D) = some (.obj fields) →
        lookupField k fields = none →
        get D P = none) := by
  refine ⟨fun h => mappingChain_foldl D (splitC '.' P) w h,
    fun ks1 ks2 h => ?_, fun k s => rfl, fun k n => rfl, fun k b => rfl, fun k => rfl,
    fun k xs i hidx hlt => ?_, fun k fields h => ?_, fun xs => by simp [getStep],
    fun k xs hk hidx => getStep_arr_miss k xs hk hidx,
    fun ks1 ks2 k fields hsplit hfold hmiss => ?_⟩
  · rw [List.foldl_append, h]
    exact foldl_getStep_none ks2
  · have hkl : k ≠ "length" := by
      intro hk
      rw [hk] at hidx
      rw [show arrayIndexOf "length".data = none from by decide] at hidx
      cases hidx
    simp [getStep, hkl, hidx, hlt]
  · show lookupField k fields = none
    exact h
  · exact get_stop_mid D P ks1 ks2 k (.obj fields) hsplit hfold (by
      show lookupField k fields = none
      exact hmiss)

/-- Witness for C2: a two-segment chain of objects reaches the leaf, a
segment missing from the object at the second step is undefined, and the
length property of an array is defined. -/
theorem get_mapping_chain_amended_witness :
    get (.obj (JSFields.ofList [("user", .obj (JSFields.ofList [("name", .str "Ann")]))])) "user.name"
      = some (.str "Ann")
    ∧ get (.obj (JSFields.ofList [("user", .obj (JSFields.ofList [("name", .str "Ann")]))])) "user.age"
      = none
    ∧ getStep (some (.arr (JSList.ofList [.num 7]))) "length" = some (.num 1) := by
  refine ⟨?_, ?_, ?_⟩
  · exact (get_mapping_chain_amended
      (.obj (JSFields.ofList [("user", .obj (JSFields.ofList [("name", .str "Ann")]))]))
      "user.name" (.str "Ann")).1
      (MappingChain.cons _ "user" (.obj (JSFields.ofList [("name", .str "Ann")])) (.str "Ann") ["name"]
        rfl
        (MappingChain.cons _ "name" (.str "Ann") (.str "Ann") [] rfl (MappingChain.nil _)))
  · exact (get_mapping_chain_amended
      (.obj (JSFields.ofList [("user", .obj (JSFields.ofList [("name", .str "Ann")]))]))
      "user.age" .null).2.2.2.2.2.2.2.2.2.2
      ["user"] [] "age" (JSFields.ofList [("name", .str "Ann")]) rfl rfl rfl
  · exact (get_mapping_chain_amended .null "x" .null).2.2.2.2.2.2.2.2.1
      (JSList.ofList [.num 7])

/-- Counterexample for C2: an intermediate array is not a mapping, yet the
lookup descends into it instead of returning the undefined sentinel. -/
theorem get_array_descent_counterexample :
    get (.obj (JSFields.ofList [("a", .arr (JSList.ofList [.num 5]))])) "a.0" = some (.num 5)
    ∧ ¬ get (.obj (JSFields.ofList [("a", .arr (JSList.ofList [.num 5]))])) "a.0" = none :=
  ⟨rfl, fun h => nomatch h⟩

/-- C3 (amended): a path lookup only descends into object-typed values:
whenever the value reached at some point of the descent is a string, a
number, a boolean or null, the remaining lookup yields the undefined
sentinel rather than descending or raising an error; arrays, however, are
object-typed: a canonical in-range numeric segment on an array returns the
element, while a non-canonical or out-of-range segment — also in the middle
of a longer path — yields the sentinel. -/
theorem get_nonmapping_amended :
    (∀ (D : JSValue) (P : String) (ks1 ks2 : List String) (k : String) (w : JSValue),
      splitC '.' P = ks1 ++ k :: ks2 →
      ks1.foldl getStep (some D) = some w →
      (w = .null ∨ (∃ b, w = .bool b) ∨ (∃ n : Int, w = .num n) ∨ (∃ s, w = .str s)) →
      get D P = none)
    ∧ (∀ (k : String) (xs : JSList) (i : Nat), arrayIndexOf k.data = some i → i < xs.length →
        getStep (some (.arr xs)) k = some (xs.getD i .null))
    ∧ (∀ (k : String) (xs : JSList), k ≠ "length" →
        arrayIndexOf k.data = none ∨ (∃ i, arrayIndexOf k.data = some i ∧ ¬ i < xs.length) →
        getStep (some (.arr xs)) k = none)
    ∧ (∀ (D : JSValue) (P : String) (ks1 ks2 : List String) (k : String) (xs : JSList),
        splitC '.' P = ks1 ++ k :: ks2 →
        ks1.foldl getStep (some D) = some (.arr xs) →
        k ≠ "length" →
        arrayIndexOf k.data = none ∨ (∃ i, arrayIndexOf k.data = some i ∧ ¬ i < xs.length) →
        get D P = none) := by
  refine ⟨fun D P ks1 ks2 k w hsplit hfold hw => ?_, fun k xs i hidx hlt => ?_,
    fun k xs hk hidx => getStep_arr_miss k xs hk hidx,
    fun D P ks1 ks2 k xs hsplit hfold hk hidx =>
      get_stop_mid D P ks1 ks2 k (.arr xs) hsplit hfold (getStep_arr_miss k xs hk hidx)⟩
  · have hstep : getStep (some w) k = none := by
      rcases hw with h1 | ⟨b, h2⟩ | ⟨n, h3⟩ | ⟨s, h4⟩
      · rw [h1]; rfl
      · rw [h2]; rfl
      · rw [h3]; rfl
      · rw [h4]; rfl
    exact get_stop_mid D P ks1 ks2 k w hsplit hfold hstep
  · have hkl : k ≠ "length" := by
      intro hkk
      rw [hkk] at hidx
      rw [show arrayIndexOf "length".data = none from by decide] at hidx
      cases hidx
    simp [getStep, hkl, hidx, hlt]

/-- Witness for C3 (amended): indexing through a number in the middle of a
path yields the sentinel, the canonical numeric segment 1 on a two-element
array returns the second element, and an out-of-range segment 5 and a
non-canonical segment 01 yield the sentinel. -/
theorem get_nonmapping_amended_witness :
    get (.obj (JSFields.ofList [("a", .num 1)])) "a.b" = none
    ∧ getStep (some (.arr (JSList.ofList [.num 10, .num 20]))) "1" = some (.num 20)
    ∧ getStep (some (.arr (JSList.ofList [.num 10, .num 20]))) "5" = none
    ∧ getStep (some (.arr (JSList.ofList [.num 10, .num 20]))) "01" = none
    ∧ get (.obj (JSFields.ofList [("a", .arr (JSList.ofList [.num 10, .num 20]))])) "a.5" = none := by
  refine ⟨?_, ?_, ?_, ?_, ?_⟩
  · exact get_nonmapping_amended.1 (.obj (JSFields.ofList [("a", .num 1)])) "a.b"
      ["a"] [] "b" (.num 1) rfl rfl (Or.inr (Or.inr (Or.inl ⟨1, rfl⟩)))
  · exact get_nonmapping_amended.2.1 "1" (JSList.ofList [.num 10, .num 20]) 1
      (by decide) (by decide)
  · exact get_nonmapping_amended.2.2.1 "5" (JSList.ofList [.num 10, .num 20])
      (by decide) (Or.inr ⟨5, by decide, by decide⟩)
  · exact get_nonmapping_amended.2.2.1 "01" (JSList.ofList [.num 10, .num 20])
      (by decide) (Or.inl (by decide))
  · exact get_nonmapping_amended.2.2.2
      (.obj (JSFields.ofList [("a", .arr (JSList.ofList [.num 10, .num 20]))])) "a.5"
      ["a"] [] "5" (JSList.ofList [.num 10, .num 20]) rfl rfl
      (by decide) (Or.inr ⟨5, by decide, by decide⟩)

/-- Counterexample for C3: the claim predicts the undefined sentinel for
every numeric segment on an array value, but the lookup returns the
element. -/
theorem get_array_numeric_counterexample :
    get (.arr (JSList.ofList [.num 10, .num 20])) "1" = some (.num 20)
    ∧ ¬ get (.arr (JSList.ofList [.num 10, .num 20])) "1" = none :=
  ⟨rfl, fun h => nomatch h⟩

/-- C5: the json modifier serializes the current value; when the following
token parses as an integer it is consumed — it is not applied as a modifier
itself — and becomes the indentation width, otherwise the width is 2; a
trailing json token also uses width 2. -/
theorem applyModifiers_json_indent (v : JSValue) (tok : String) (rest : List String) :
    (∀ n, jsParseInt tok = some n →
      applyModifiers v ("json" :: tok :: rest) = applyModifiers (.str (jsonStringify v n)) rest)
    ∧ (jsParseInt tok = none →
      applyModifiers v ("json" :: tok :: rest) = applyModifiers (.str (jsonStringify v 2)) (tok :: rest))
    ∧ applyModifiers v ["json"] = .str (jsonStringify v 2) := by
  refine ⟨fun n hn => ?_, fun hn => ?_, ?_⟩
  · simp [applyModifiers, hn]
  · simp [applyModifiers, hn]
  · simp [applyModifiers]

/-- Witness for C5: an explicit indentation 4 on an array, matching the
JSON.stringify output with null replacer and space 4. -/
theorem applyModifiers_json_indent_witness :
    jsParseInt "4" = some 4
    ∧ applyModifiers (.arr (JSList.ofList [.num 1, .num 2])) ["json", "4"]
        = .str "[\n    1,\n    2\n]"
    ∧ applyModifiers (.arr (JSList.ofList [.num 1, .num 2])) ["json"]
        = .str "[\n  1,\n  2\n]" := by
  refine ⟨rfl, ?_, ?_⟩
  · have h := (applyModifiers_json_indent (.arr (JSList.ofList [.num 1, .num 2])) "4" []).1 4 rfl
    exact h
  · have h := (applyModifiers_json_indent (.arr (JSList.ofList [.num 1, .num 2])) "x" []).2.2
    exact h

/-- Modelled from the spec: the default text as the claim describes it,
namely everything after the first equals sign rejoined verbatim and trimmed
only of surrounding whitespace.  Comparison definition for C4. -/
def specDefaultOf (expr : String) : Option String :=
  match expr.data.splitOn '=' with
  | _ :: d :: ds => some (jsTrim (String.mk (List.intercalate ['='] (d :: ds))))
  | _ => none

/-- Mapping through trim after splitting equals mapping the composed trim. -/
theorem map_jsTrim_mk (ls : List (List Char)) :
    (ls.map String.mk).map jsTrim = ls.map (fun l => String.mk (trimL l)) := by
  rw [List.map_map]
  rfl

/-- C4 (amended): the expression is split on the equals sign and every part
is trimmed individually before the parts after the first are rejoined with
the equals sign, so whitespace around every equals sign is removed while the
other interior characters are preserved; the part before the first equals
sign is the trimmed fallback spec; an expression with no equals sign has no
default. -/
theorem defaultValueOf_trimmed_parts_amended (a d : List Char) (ds : List (List Char))
    (ha : '=' ∉ a) (hd : ∀ l ∈ d :: ds, '=' ∉ l) :
    defaultValueOf (String.mk (List.intercalate ['='] (a :: d :: ds)))
      = some (jsTrim (String.intercalate "=" ((d :: ds).map (fun l => String.mk (trimL l)))))
    ∧ fallbacksStrOf (String.mk (List.intercalate ['='] (a :: d :: ds))) = String.mk (trimL a)
    ∧ defaultValueOf (String.mk a) = none
    ∧ fallbacksStrOf (String.mk a) = String.mk (trimL a) := by
  have hsplit : (List.intercalate ['='] (a :: d :: ds)).splitOn '=' = a :: d :: ds := by
    apply List.splitOn_intercalate
    · intro l hl
      rcases List.mem_cons.mp hl with h1 | h2
      · rwa [h1]
      · exact hd l h2
    · exact fun h => List.noConfusion h
  have hparts : parseParts (String.mk (List.intercalate ['='] (a :: d :: ds)))
      = (a :: d :: ds).map (fun l => String.mk (trimL l)) := by
    show (((String.mk (List.intercalate ['='] (a :: d :: ds))).data.splitOn '=').map String.mk).map jsTrim = _
    rw [show (String.mk (List.intercalate ['='] (a :: d :: ds))).data
        = List.intercalate ['='] (a :: d :: ds) from rfl, hsplit]
    exact map_jsTrim_mk (a :: d :: ds)
  have hsingle : a.splitOn '=' = [a] := by
    apply List.splitOnP_eq_single
    intro x hx hbeq
    exact ha (eq_of_beq hbeq ▸ hx)
  have hparts2 : parseParts (String.mk a) = [String.mk (trimL a)] := by
    show (((String.mk a).data.splitOn '=').map String.mk).map jsTrim = _
    rw [show (String.mk a).data = a from rfl, hsingle]
    rfl
  refine ⟨?_, ?_, ?_, ?_⟩
  · show (match parseParts (String.mk (List.intercalate ['='] (a :: d :: ds))) with
      | _ :: d2 :: ds2 => some (jsTrim (String.intercalate "=" (d2 :: ds2)))
      | _ => none) = _
    rw [hparts]
    rfl
  · show (match parseParts (String.mk (List.intercalate ['='] (a :: d :: ds))) with
      | [] => ""
      | p :: _ => p) = _
    rw [hparts]
    rfl
  · show (match parseParts (String.mk a) with
      | _ :: d2 :: ds2 => some (jsTrim (String.intercalate "=" (d2 :: ds2)))
      | _ => none) = _
    rw [hparts2]
  · show (match parseParts (String.mk a) with
      | [] => ""
      | p :: _ => p) = _
    rw [hparts2]

/-- Witness for C4 (amended): the parts around both equals signs are trimmed
before rejoining. -/
theorem defaultValueOf_trimmed_parts_amended_witness :
    defaultValueOf "k= x =y" = some "x=y" := by
  have h := (defaultValueOf_trimmed_parts_amended "k".data " x ".data ["y".data]
    (by decide) (by decide)).1
  have e1 : String.mk (List.intercalate ['='] ["k".data, " x ".data, "y".data]) = "k= x =y" := by
    decide
  rw [e1] at h
  exact h.trans (congrArg some (by decide))

/-- Counterexample for C4: the claim preserves interior whitespace around
later equals signs, but the source trims every part before rejoining, so the
default of the expression k-equals-space-a-space-equals-space-b loses the
spaces around the second equals sign. -/
theorem defaultValueOf_interior_whitespace_counterexample :
    specDefaultOf "k = a = b" = some "a = b"
    ∧ resolveExpression "k = a = b" (.obj .nil) "f.tmpl" = .ok "a=b"
    ∧ ("a=b" : String) ≠ "a = b" :=
  ⟨rfl, rfl, by decide⟩

/-- The error text thrown by the secondary-substitution callback. -/
def secondaryErrMsg (expr src ip : String) : String :=
  "Variable '@" ++ jsTrim ip ++ "@' inside default for '" ++ expr
    ++ "' in '" ++ src ++ "' must resolve to a string or number."

/-- Text without at signs before a token is copied by the secondary scan. -/
theorem rtOut_no_at (f : String → Except String String) (pre : List Char) :
    ∀ rest : List Char, (∀ c ∈ pre, c ≠ '@') →
      rtOut f (pre ++ rest) = (rtOut f rest).map (fun t => String.mk pre ++ t) := by
  induction pre with
  | nil =>
    intro rest h
    cases hr : rtOut f rest with
    | ok s =>
      rw [List.nil_append, hr]
      show Except.ok s = Except.ok (String.mk [] ++ s)
      rw [str_nil_append]
    | error e => rw [List.nil_append, hr]; rfl
  | cons c cs ih =>
    intro rest h
    have hc : c ≠ '@' := h c (List.mem_cons_self c cs)
    rw [List.cons_append]
    show (if c = '@' then rtIn f [] (cs ++ rest)
        else (rtOut f (cs ++ rest)).map (fun t => String.mk [c] ++ t)) = _
    rw [if_neg hc, ih rest (fun x hx => h x (List.mem_cons_of_mem c hx))]
    cases hr : rtOut f rest with
    | ok s =>
      show Except.ok (String.mk [c] ++ (String.mk cs ++ s)) = Except.ok (String.mk (c :: cs) ++ s)
      cases s
      rfl
    | error e => rfl

/-- The scan inside a token accumulates characters that are not at signs. -/
theorem rtIn_accum (f : String → Except String String) (p : List Char) :
    ∀ buf rest : List Char, (∀ c ∈ p, c ≠ '@') →
      rtIn f buf (p ++ rest) = rtIn f (p.reverse ++ buf) rest := by
  induction p with
  | nil => intro buf rest h; rfl
  | cons c cs ih =>
    intro buf rest h
    have hc : c ≠ '@' := h c (List.mem_cons_self c cs)
    rw [List.cons_append]
    show (if c = '@' then _ else rtIn f (c :: buf) (cs ++ rest)) = _
    rw [if_neg hc, ih (c :: buf) rest (fun x hx => h x (List.mem_cons_of_mem c hx))]
    congr 1
    simp

/-- Trailing text without at signs is copied unchanged. -/
theorem rtOut_all_lit (f : String → Except String String) (suf : List Char)
    (h : ∀ c ∈ suf, c ≠ '@') : rtOut f suf = .ok (String.mk suf) := by
  induction suf with
  | nil => rfl
  | cons c cs ih =>
    have hc : c ≠ '@' := h c (List.mem_cons_self c cs)
    show (if c = '@' then rtIn f [] cs else (rtOut f cs).map (fun t => String.mk [c] ++ t)) = _
    rw [if_neg hc, ih (fun x hx => h x (List.mem_cons_of_mem c hx))]
    rfl

/-- The secondary scan on literal text around exactly one token: the token
is looked up through the callback, a failure propagates, a success is
spliced between the surrounding literal text. -/
theorem rtOut_single_token (f : String → Except String String) (pre p suf : List Char)
    (hpre : ∀ c ∈ pre, c ≠ '@') (hp : p ≠ []) (hpAt : ∀ c ∈ p, c ≠ '@')
    (hsuf : ∀ c ∈ suf, c ≠ '@') :
    rtOut f (pre ++ '@' :: (p ++ '@' :: suf))
      = (match f (String.mk p) with
         | .error e => .error e
         | .ok r => .ok (String.mk pre ++ (r ++ String.mk suf))) := by
  rw [rtOut_no_at f pre ('@' :: (p ++ '@' :: suf)) hpre]
  have h1 : rtOut f ('@' :: (p ++ '@' :: suf)) = rtIn f [] (p ++ '@' :: suf) := by
    show (if ('@' : Char) = '@' then rtIn f [] (p ++ '@' :: suf) else _) = _
    rw [if_pos rfl]
  rw [h1, rtIn_accum f p [] ('@' :: suf) hpAt]
  have hbuf : p.reverse ≠ [] := by simp [hp]
  have h2 : rtIn f (p.reverse ++ []) ('@' :: suf)
      = (match f (String.mk p) with
         | .error e => .error e
         | .ok r => (rtOut f suf).map (fun t => r ++ t)) := by
    rw [List.append_nil]
    simp only [rtIn, if_pos rfl, if_neg hbuf, List.reverse_reverse]
    exact if_pos trivial
  rw [h2]
  cases hf : f (String.mk p) with
  | error e => rfl
  | ok r =>
    rw [rtOut_all_lit f suf hsuf]
    rfl

/-- C6: when no fallback resolves and the default text is literal text
around one at-sign token, the token is looked up with get on the trimmed
inner path, with no modifiers and no fallbacks: a string value or the string
form of a number value is spliced between the surrounding text, and any
other outcome — object, array, null, boolean, or an undefined lookup —
fails with the error naming the token, the outer expression and the source
file. -/
theorem resolveExpression_default_secondary
    (expr src : String) (subs : JSValue) (d : String) (pre p suf : List Char)
    (hfb : firstResolved subs (parseFallbacks expr) = none)
    (hd : defaultValueOf expr = some d)
    (hshape : d.data = pre ++ '@' :: (p ++ '@' :: suf))
    (hpre : ∀ c ∈ pre, c ≠ '@')
    (hp : p ≠ []) (hpAt : ∀ c ∈ p, c ≠ '@')
    (hsuf : ∀ c ∈ suf, c ≠ '@') :
    (∀ s, get subs (jsTrim (String.mk p)) = some (.str s) →
      resolveExpression expr subs src = .ok (String.mk pre ++ (s ++ String.mk suf)))
    ∧ (∀ n : Int, get subs (jsTrim (String.mk p)) = some (.num n) →
      resolveExpression expr subs src = .ok (String.mk pre ++ (toString n ++ String.mk suf)))
    ∧ (∀ m, secondaryLookup subs expr src (String.mk p) = .error m →
      resolveExpression expr subs src = .error m)
    ∧ (∀ v, get subs (jsTrim (String.mk p)) = some v →
        (∀ s, v ≠ .str s) → (∀ n : Int, v ≠ .num n) →
        secondaryLookup subs expr src (String.mk p) = .error (secondaryErrMsg expr src (String.mk p)))
    ∧ (get subs (jsTrim (String.mk p)) = none →
        secondaryLookup subs expr src (String.mk p) = .error (secondaryErrMsg expr src (String.mk p))) := by
  have key : resolveExpression expr subs src
      = (match secondaryLookup subs expr src (String.mk p) with
         | .error e => .error e
         | .ok r => .ok (String.mk pre ++ (r ++ String.mk suf))) := by
    have base : resolveExpression expr subs src
        = (match rtOut (secondaryLookup subs expr src) d.data with
           | .ok r => .ok r
           | .error e => .error e) := by
      simp [resolveExpression, hfb, hd]
    rw [base, hshape, rtOut_single_token (secondaryLookup subs expr src) pre p suf hpre hp hpAt hsuf]
    cases secondaryLookup subs expr src (String.mk p) with
    | error e => rfl
    | ok r => rfl
  refine ⟨fun s hs => ?_, fun n hn => ?_, fun m hm => ?_, fun v hv hvs hvn => ?_, fun hnone => ?_⟩
  · rw [key, show secondaryLookup subs expr src (String.mk p) = .ok s from by
      simp [secondaryLookup, hs]]
  · rw [key, show secondaryLookup subs expr src (String.mk p) = .ok (toString n) from by
      simp [secondaryLookup, hn]]
  · rw [key, hm]
  · cases v with
    | str s => exact absurd rfl (hvs s)
    | num n => exact absurd rfl (hvn n)
    | null => simp [secondaryLookup, hv, secondaryErrMsg]
    | bool b => simp [secondaryLookup, hv, secondaryErrMsg]
    | arr xs => simp [secondaryLookup, hv, secondaryErrMsg]
    | obj fs => simp [secondaryLookup, hv, secondaryErrMsg]
  · simp [secondaryLookup, hnone, secondaryErrMsg]

/-- Witness for C6, on the spec example: the token between at signs in the
default text resolves to a string and is spliced into the literal text. -/
theorem resolveExpression_default_secondary_witness :
    resolveExpression "missing = Hello, @user.name@"
      (.obj (JSFields.ofList [("user", .obj (JSFields.ofList [("name", .str "Ann")]))])) "f.tmpl"
      = .ok "Hello, Ann" := by
  have h := (resolveExpression_default_secondary "missing = Hello, @user.name@" "f.tmpl"
    (.obj (JSFields.ofList [("user", .obj (JSFields.ofList [("name", .str "Ann")]))]))
    "Hello, @user.name@" "Hello, ".data "user.name".data []
    rfl rfl (by decide) (by decide) (by decide) (by decide) (by decide)).1 "Ann" rfl
  exact h.trans (congrArg Except.ok (by decide))

/-- C8 (amended): the written output of a template file is produced in two
passes — every matched expression is first resolved from its original
matched span, and the collected replacements are then applied one after the
other, in match order, each replacing every occurrence of its original
matched text in the then-current content by exact literal-text matching;
the pattern engine never runs on resolved output (a find string absent from
the current content leaves it unchanged), but a later find string occurring
literally inside earlier-resolved text is still replaced, so double
substitution can occur in that corner. -/
theorem substituteContent_sequential_amended (content src : String) (subs : JSValue) :
    (∀ reps, collectReplacements subs src (findMatches content.data) = .ok reps →
      substituteContent content subs src
        = .ok (String.mk (reps.foldl (fun acc fr => replaceAll fr.1 fr.2 acc) content.data)))
    ∧ (∀ e, collectReplacements subs src (findMatches content.data) = .error e →
      substituteContent content subs src = .error e)
    ∧ (∀ find repl : List Char, ∀ fuel : Nat, ∀ cs : List Char,
        hasSub find cs = false → replaceAllF find repl fuel cs = cs) := by
  refine ⟨fun reps h => by simp [substituteContent, h], fun e h => by simp [substituteContent, h],
    fun find repl fuel => ?_⟩
  induction fuel with
  | zero =>
    intro cs _
    cases cs with
    | nil => rfl
    | cons c rest => rfl
  | succ n ih =>
    intro cs h
    cases cs with
    | nil => rfl
    | cons c rest =>
      have hextract : find.isPrefixOf (c :: rest) = false ∧ hasSub find rest = false := by
        have : (c :: rest).tails = (c :: rest) :: rest.tails := by
          simp [List.tails]
        simp only [hasSub, this, List.any_cons, Bool.or_eq_false_iff] at h
        exact ⟨h.1, h.2⟩
      show (if find ≠ [] ∧ find.isPrefixOf (c :: rest) = true then
          repl ++ replaceAllF find repl n ((c :: rest).drop find.length)
        else c :: replaceAllF find repl n rest) = c :: rest
      rw [if_neg (fun hcontra => by rw [hextract.1] at hcontra; exact Bool.noConfusion hcontra.2)]
      rw [ih rest hextract.2]

/-- Witness for C8 (amended): a single expression resolved first and then
substituted by literal matching. -/
theorem substituteContent_sequential_amended_witness :
    substituteContent "Hi {{ n }}" (.obj (JSFields.ofList [("n", .str "Bob")])) "g.tmpl"
      = .ok "Hi Bob" := by
  have h := (substituteContent_sequential_amended "Hi {{ n }}" "g.tmpl"
    (.obj (JSFields.ofList [("n", .str "Bob")]))).1
    [("{{ n }}".data, "Bob".data)] rfl
  exact h.trans (congrArg Except.ok (by decide))

/-- Counterexample for C8: the first expression resolves to text that equals
the second matched span, and the second literal replacement rewrites it, so
the output is not the original content with each occurrence replaced by its
own resolved value (which the spec-modelled simultaneous substitution
computes). -/
theorem substituteContent_double_subst_counterexample :
    substituteContent "{{ a }} {{ b }}"
      (.obj (JSFields.ofList [("a", .str "{{ b }}"), ("b", .str "B")])) "f.tmpl" = .ok "B B"
    ∧ specSimultaneousSubst "{{ a }} {{ b }}"
      (.obj (JSFields.ofList [("a", .str "{{ b }}"), ("b", .str "B")])) "f.tmpl"
      = .ok "{{ b }} B"
    ∧ ("B B" : String) ≠ "{{ b }} B" :=
  ⟨rfl, rfl, by decide⟩

/-- C9: in the file branch of copyAndSubstitute, the decision to substitute
comes from the SOURCE name ending in the template suffix while the decision
to strip the suffix comes from the TARGET name; a template source with a
non-template target is substituted and written to exactly the given target,
and a non-template source with a template target is byte-copied to the
target with the suffix stripped. -/
theorem fileStep_source_target_suffix (source target : String) (subs : JSValue) (content : String) :
    (endsWithTmpl source = true → endsWithTmpl target = false →
      fileStep source target subs content
        = .substituted target (substituteContent content subs source))
    ∧ (endsWithTmpl source = false → endsWithTmpl target = true →
      fileStep source target subs content
        = .copied (String.mk (target.data.take (target.data.length - 5))))
    ∧ (endsWithTmpl target = false → finalTargetPath target = target) := by
  refine ⟨fun hs ht => ?_, fun hs ht => ?_, fun ht => ?_⟩
  · simp [fileStep, hs, finalTargetPath, ht]
  · simp [fileStep, hs, finalTargetPath, ht]
  · simp [finalTargetPath, ht]

/-- Witness for C9, on the init.sh invocation shape: a template source with
a plain target is substituted and written to exactly that target name, and
the converse direction strips the suffix from a template target. -/
theorem fileStep_source_target_suffix_witness :
    fileStep "strings.xml.tmpl" "strings.xml" (.obj .nil) "hi"
      = .substituted "strings.xml" (substituteContent "hi" (.obj .nil) "strings.xml.tmpl")
    ∧ fileStep "icon.png" "icon.png.tmpl" (.obj .nil) "hi"
      = .copied "icon.png"
    ∧ substituteContent "hi" (.obj .nil) "strings.xml.tmpl" = .ok "hi" := by
  refine ⟨?_, ?_, rfl⟩
  · exact (fileStep_source_target_suffix "strings.xml.tmpl" "strings.xml" (.obj .nil) "hi").1
      (by decide) (by decide)
  · have h := (fileStep_source_target_suffix "icon.png" "icon.png.tmpl" (.obj .nil) "hi").2.1
      (by decide) (by decide)
    exact h.trans (congrArg FileAction.copied (by decide))

end CopySubst
